import Mathlib

/-!
Verification of the documentation-agent core: a shallow embedding of the
text segmentation pipeline (`app/processors/text_processor.py`), the
retrieval aggregator (`app/agents/nodes.py` RAGNode together with
`app/processors/embedding_manager.py`), the intent classifier, the
conversation orchestrator (`app/agents/workflow.py`), and the response
post-processor, with theorems settling the stated properties.

Python strings are modelled as `List Char`; Python floats as `ℚ`;
fallible external calls (LLM invocations, vector-store queries) as
`Option`/function parameters; Python dicts as association lists.
-/

/-- Python `\s` for the ASCII range: space, tab, newline, carriage return,
vertical tab, form feed. -/
def isPySpace (c : Char) : Bool :=
  c = ' ' || c = '\t' || c = '\n' || c = '\r' || c = '\x0b' || c = '\x0c'

/-- The control characters removed by `_clean_text`:
`[\x00-\x08\x0B\x0C\x0E-\x1F\x7F]` (note `\t`, `\n`, `\r` are kept). -/
def isCtrlChar (c : Char) : Bool :=
  (c.toNat ≤ 0x08) || c = '\x0b' || c = '\x0c' ||
  (0x0e ≤ c.toNat && c.toNat ≤ 0x1f) || c = '\x7f'

/-- Python `\w` (ASCII fragment): letters, digits, underscore. -/
def isWordChar (c : Char) : Bool :=
  c.isAlpha || c.isDigit || c = '_'

/-- Python `str.strip()`: drop whitespace from both ends. -/
def pyStrip (l : List Char) : List Char :=
  ((l.dropWhile isPySpace).reverse.dropWhile isPySpace).reverse

/-- Auxiliary: `dropWhile` never lengthens a list. -/
theorem dropWhile_length_le (p : Char → Bool) (l : List Char) :
    (l.dropWhile p).length ≤ l.length := by
  induction l with
  | nil => simp
  | cons c rest ih =>
    by_cases h : p c
    · simp [List.dropWhile, h]; omega
    · simp [List.dropWhile, h]

/-- Auxiliary: `takeWhile` never lengthens a list. -/
theorem takeWhile_length_le (p : Char → Bool) (l : List Char) :
    (l.takeWhile p).length ≤ l.length := by
  induction l with
  | nil => simp
  | cons c rest ih =>
    by_cases h : p c
    · simp [List.takeWhile, h]; omega
    · simp [List.takeWhile, h]

/-- Worker for `pySplitWs`. The fuel argument is instantiated with the
input length, which the recursion never outruns (every call strictly
shrinks the list), so the fuel-exhaustion arm is unreachable. -/
def pySplitWsF (fuel : Nat) (l : List Char) : List (List Char) :=
  match fuel, l with
  | _, [] => []
  | 0, _ => []
  | fuel + 1, c :: rest =>
    if isPySpace c then pySplitWsF fuel rest
    else
      (c :: rest.takeWhile (fun x => !(isPySpace x))) ::
        pySplitWsF fuel (rest.dropWhile (fun x => !(isPySpace x)))

/-- Python `str.split()` with no argument: split on whitespace runs,
discarding empty pieces. -/
def pySplitWs (l : List Char) : List (List Char) :=
  pySplitWsF l.length l

/-- Worker for `splitSentencesRe`, accumulating the current piece
reversed; fuel as in `pySplitWsF`. -/
def splitSentGo (fuel : Nat) (cur : List Char) (l : List Char) : List (List Char) :=
  match fuel, l with
  | _, [] => [cur.reverse]
  | 0, _ => [cur.reverse]
  | fuel + 1, c :: rest =>
    if c = '.' || c = '!' || c = '?' then
      cur.reverse ::
        splitSentGo fuel [] (rest.dropWhile (fun x => x = '.' || x = '!' || x = '?'))
    else splitSentGo fuel (c :: cur) rest

/-- `re.split(r'[.!?]+', paragraph)`: split on maximal runs of
sentence-ending punctuation. -/
def splitSentencesRe (l : List Char) : List (List Char) :=
  splitSentGo l.length [] l

/-- Count of newline characters in a list. -/
def countNl (l : List Char) : Nat := l.countP (fun c => c = '\n')

/-- The part of `l` strictly after its last newline (all of `l` when it has
none). -/
def afterLastNl (l : List Char) : List Char :=
  (l.reverse.takeWhile (fun c => c ≠ '\n')).reverse

theorem afterLastNl_length_le (l : List Char) :
    (afterLastNl l).length ≤ l.length := by
  have := takeWhile_length_le (fun c => decide (c ≠ '\n')) l.reverse
  simp [afterLastNl] at *
  omega

/-- `re.split(r'\n\s*\n', text)`: a match starts at a newline whose
following maximal whitespace run contains a further newline; the greedy
`\s*` makes the match extend through the last newline of that run. -/
def splitParaGo (fuel : Nat) (cur : List Char) (l : List Char) : List (List Char) :=
  match fuel, l with
  | _, [] => [cur.reverse]
  | 0, _ => [cur.reverse]
  | fuel + 1, c :: rest =>
    if c = '\n' ∧ 1 ≤ countNl (rest.takeWhile isPySpace) then
      cur.reverse ::
        splitParaGo fuel [] (afterLastNl (rest.takeWhile isPySpace) ++
                               rest.drop (rest.takeWhile isPySpace).length)
    else splitParaGo fuel (c :: cur) rest

/-- `re.split(r'\n\s*\n', text)` (see `splitParaGo`). -/
def splitParagraphsRe (l : List Char) : List (List Char) :=
  splitParaGo l.length [] l

/-- `re.sub(r'\s+', ' ', text)`: each maximal whitespace run becomes a
single space; fuel as in `pySplitWsF`. -/
def normalizeWsReF (fuel : Nat) (l : List Char) : List Char :=
  match fuel, l with
  | _, [] => []
  | 0, _ => []
  | fuel + 1, c :: rest =>
    if isPySpace c then ' ' :: normalizeWsReF fuel (rest.dropWhile isPySpace)
    else c :: normalizeWsReF fuel rest

/-- `re.sub(r'\s+', ' ', text)`. -/
def normalizeWsRe (l : List Char) : List Char :=
  normalizeWsReF l.length l

/-- `re.sub(r'\n\s*\n\s*\n', '\n\n', text)`: a match starts at a newline
whose following maximal whitespace run contains at least two further
newlines; the greedy `\s*`s make the match extend through the last newline
of that run, and it is replaced by two newlines; fuel as in `pySplitWsF`. -/
def collapseBlankRunsF (fuel : Nat) (l : List Char) : List Char :=
  match fuel, l with
  | _, [] => []
  | 0, _ => []
  | fuel + 1, c :: rest =>
    if c = '\n' ∧ 2 ≤ countNl (rest.takeWhile isPySpace) then
      '\n' :: '\n' ::
        collapseBlankRunsF fuel (afterLastNl (rest.takeWhile isPySpace) ++
                                   rest.drop (rest.takeWhile isPySpace).length)
    else c :: collapseBlankRunsF fuel rest

/-- `re.sub(r'\n\s*\n\s*\n', '\n\n', text)`. -/
def collapseBlankRuns (l : List Char) : List Char :=
  collapseBlankRunsF l.length l

/-- `TextProcessor._clean_text`: strip control characters, normalize
whitespace runs to single spaces, collapse triple blank lines, then strip
both ends. -/
def cleanText (text : List Char) : List Char :=
  pyStrip (collapseBlankRuns (normalizeWsRe (text.filter (fun c => ¬ isCtrlChar c))))

/-- A metadata value: the source dicts mix strings and ints. -/
inductive MetaVal where
  | s (v : String)
  | n (v : Nat)
deriving DecidableEq

/-- A fragment produced by the segmenter (`TextProcessor`): content,
metadata dict, source URL. -/
structure Chunk where
  content : List Char
  metadata : List (String × MetaVal)
  source : List Char
deriving DecidableEq

/-- Python `dict.update`: existing keys keep their position but take the
other dict's value; new keys are appended in the other dict's order. -/
def dictUpdate (a b : List (String × MetaVal)) : List (String × MetaVal) :=
  (a.map (fun p =>
    match b.find? (fun q => q.1 == p.1) with
    | some q => (p.1, q.2)
    | none => p)) ++
  b.filter (fun q => !(a.any (fun p => p.1 == q.1)))

/-- Worker for `TextProcessor._split_by_words`: accumulate words into
`current`, flushing when adding the next word would pass `cs`; an
over-long word arriving at an empty buffer is hard-truncated to `cs`. -/
def splitByWordsGo (cs : Nat) (current : List Char) (chunks : List (List Char)) :
    List (List Char) → List (List Char)
  | [] => if current ≠ [] then chunks ++ [pyStrip current] else chunks
  | w :: rest =>
    if cs < current.length + w.length + 1 then
      if current ≠ [] then splitByWordsGo cs w (chunks ++ [pyStrip current]) rest
      else splitByWordsGo cs [] (chunks ++ [w.take cs]) rest
    else
      splitByWordsGo cs (if current ≠ [] then current ++ ' ' :: w else w) chunks rest

/-- `TextProcessor._split_by_words` with segment bound `cs`
(`settings.chunk_size`). -/
def splitByWords (cs : Nat) (text : List Char) : List (List Char) :=
  splitByWordsGo cs [] [] (pySplitWs text)

/-- Worker for `TextProcessor._split_long_paragraph`: accumulate stripped
sentences joined by `". "`, flushing when the (undercounted) length check
passes `cs`; a sentence longer than `cs` at an empty buffer is word-split. -/
def splitLongParagraphGo (cs : Nat) (current : List Char) (chunks : List (List Char)) :
    List (List Char) → List (List Char)
  | [] => if current ≠ [] then chunks ++ [pyStrip current] else chunks
  | s0 :: rest =>
    let s := pyStrip s0
    if s = [] then splitLongParagraphGo cs current chunks rest
    else if cs < current.length + s.length + 1 then
      if current ≠ [] then splitLongParagraphGo cs s (chunks ++ [pyStrip current]) rest
      else if cs < s.length then
        splitLongParagraphGo cs [] (chunks ++ splitByWords cs s) rest
      else splitLongParagraphGo cs [] (chunks ++ [s]) rest
    else
      splitLongParagraphGo cs
        (if current ≠ [] then current ++ '.' :: ' ' :: s else s) chunks rest

/-- `TextProcessor._split_long_paragraph`. -/
def splitLongParagraph (cs : Nat) (paragraph : List Char) : List (List Char) :=
  splitLongParagraphGo cs [] [] (splitSentencesRe paragraph)

/-- Worker for the paragraph loop of `TextProcessor._chunk_text`. -/
def chunkTextGo (cs : Nat) (md : List (String × MetaVal)) (src : List Char)
    (current : List Char) (chunks : List Chunk) :
    List (List Char) → List Chunk
  | [] => if current ≠ [] then chunks ++ [⟨pyStrip current, md, src⟩] else chunks
  | p0 :: rest =>
    let p := pyStrip p0
    if p = [] then chunkTextGo cs md src current chunks rest
    else if cs < p.length then
      chunkTextGo cs md src []
        ((if current ≠ [] then chunks ++ [⟨pyStrip current, md, src⟩] else chunks) ++
          (splitLongParagraph cs p).map (fun c => ⟨c, md, src⟩)) rest
    else if cs < current.length + p.length + 1 then
      chunkTextGo cs md src p
        (if current ≠ [] then chunks ++ [⟨pyStrip current, md, src⟩] else chunks) rest
    else
      chunkTextGo cs md src
        (if current ≠ [] then current ++ '\n' :: p else p) chunks rest

/-- `TextProcessor._chunk_text`: clean the text; emit it whole when it fits
in `cs`, otherwise split on blank-line paragraph boundaries and accumulate. -/
def chunkText (cs : Nat) (text : List Char) (md : List (String × MetaVal))
    (src : List Char) : List Chunk :=
  let cleaned := cleanText text
  if cleaned.length ≤ cs then [⟨cleaned, md, src⟩]
  else chunkTextGo cs md src [] [] (splitParagraphsRe cleaned)

/-- A code block inside a scraped section (`language` is `none` when the
`'language'` key is absent, in which case `'text'` is substituted). -/
structure CodeBlock where
  language : Option (List Char)
  content : List Char
deriving DecidableEq

/-- A scraped documentation section. Empty `title` models both an absent
and an empty title (both falsy in the source's truthiness tests). -/
structure DocSection where
  title : List Char
  level : Nat
  content : List (List Char)
  code_blocks : List CodeBlock
deriving DecidableEq

/-- A scraped document as consumed by `TextProcessor.process_document`. -/
structure DocumentData where
  title : List Char
  url : List Char
  sections : List DocSection
deriving DecidableEq

/-- The fragment emitted per code block by `TextProcessor._process_section`. -/
def codeBlockChunk (s : DocSection) (baseUrl : List Char) (cb : CodeBlock) : Chunk :=
  { content := "Código (".data ++ cb.language.getD "text".data ++ "):\n".data ++ cb.content
    metadata := [("type", .s "code_block"),
                 ("language", .s ⟨cb.language.getD "text".data⟩),
                 ("section", .s ⟨s.title⟩), ("url", .s ⟨baseUrl⟩)]
    source := baseUrl }

/-- `TextProcessor._process_section`: an optional section-title fragment,
the chunked text content, then one fragment per code block. -/
def processSection (cs : Nat) (s : DocSection) (baseUrl : List Char) : List Chunk :=
  (if s.title ≠ [] then
    [{ content := "Sección: ".data ++ s.title
       metadata := [("type", .s "section_title"), ("level", .n s.level),
                    ("url", .s ⟨baseUrl⟩), ("section", .s ⟨s.title⟩)]
       source := baseUrl }]
   else []) ++
  (if s.content ≠ [] then
    chunkText cs (List.intercalate ['\n'] s.content)
      [("type", .s "text_content"), ("section", .s ⟨s.title⟩), ("url", .s ⟨baseUrl⟩)]
      baseUrl
   else []) ++
  s.code_blocks.map (codeBlockChunk s baseUrl)

/-- `TextProcessor.process_document`: an optional title fragment followed by
each section's fragments in order. -/
def processDocument (cs : Nat) (d : DocumentData) : List Chunk :=
  (if d.title ≠ [] then
    [{ content := "Título: ".data ++ d.title
       metadata := [("type", .s "title"), ("url", .s ⟨d.url⟩), ("section", .s "header")]
       source := d.url }]
   else []) ++
  (d.sections.map (fun s => processSection cs s d.url)).flatten

/-- `TextProcessor._has_significant_overlap`: some suffix of `t1` of length
at least 50 is a prefix of `t2`. -/
def hasSignificantOverlap (t1 t2 : List Char) : Bool :=
  (List.range (t1.length - 50 + 1)).any (fun i =>
    (t1.drop i).isPrefixOf t2 && 50 ≤ (t1.drop i).length)

/-- `TextProcessor._find_overlap`: the longest suffix of `t1` that is a
prefix of `t2` (empty when none is). -/
def findOverlap (t1 t2 : List Char) : List Char :=
  match (List.range t1.length).find? (fun i => (t1.drop i).isPrefixOf t2) with
  | some i => t1.drop i
  | none => []

/-- Worker for `TextProcessor.merge_overlapping_chunks`: fold the chunk
list, merging `next` into `current` whenever they overlap significantly. -/
def mergeGo (current : Chunk) : List Chunk → List Chunk
  | [] => [current]
  | next :: rest =>
    if hasSignificantOverlap current.content next.content then
      mergeGo
        { content := current.content ++
            next.content.drop (findOverlap current.content next.content).length
          metadata := dictUpdate current.metadata next.metadata
          source := current.source } rest
    else current :: mergeGo next rest

/-- `TextProcessor.merge_overlapping_chunks`. -/
def mergeOverlappingChunks (chunks : List Chunk) : List Chunk :=
  match chunks with
  | [] => []
  | c :: rest => mergeGo c rest

/-- The markdown code-fence marker. -/
def fenceMark : List Char := "```".data

/-- The lazy `(.*?)` up to the closing fence in
`CodeFormattingNode._format_code_blocks`'s pattern: the text before the
first occurrence of the fence, plus the remainder after it (`none` when no
fence follows). -/
def scanToFence : List Char → Option (List Char × List Char)
  | [] => none
  | c :: rest =>
    if (c :: rest).take 3 = fenceMark then some ([], (c :: rest).drop 3)
    else (scanToFence rest).map (fun p => (c :: p.1, p.2))

/-- The replacement `replace_code` of
`CodeFormattingNode._format_code_blocks`: rebuild the block as
an f-string interpolating the language (with default) and the code,
with a newline inserted before the closing fence. -/
def formatFenceBlock (language : Option (List Char)) (code : List Char) : List Char :=
  fenceMark ++ language.getD "text".data ++ '\n' :: code ++ '\n' :: fenceMark

/-- The extractor given by the same fence pattern
`(three backticks)(\w+)?\n(.*?)(three backticks)`, anchored at the start:
the optional word-character language tag and the lazily matched code text. -/
def parseFenceBlock (l : List Char) : Option (Option (List Char) × List Char) :=
  if l.take 3 = fenceMark then
    let rest := l.drop 3
    let lang := rest.takeWhile isWordChar
    match rest.drop lang.length with
    | '\n' :: body =>
      (scanToFence body).map (fun p => ((if lang = [] then none else some lang), p.1))
    | _ => none
  else none

/-- Python `str.strip()` on a string value. -/
def pyStripS (s : String) : String := String.mk (pyStrip s.data)

/-- Python `str.lower()` (ASCII case mapping). -/
def pyLower (s : String) : String := String.mk (s.data.map Char.toLower)

/-- Python `str.split('\\n')`: split at every newline, keeping empty
pieces. -/
def splitOnNl : List Char -> List (List Char)
  | [] => [[]]
  | c :: rest =>
    match splitOnNl rest with
    | [] => [[c]]
    | p :: ps => if c = '\n' then [] :: p :: ps else (c :: p) :: ps

/-- The four-intent enumeration (`valid_intents` in
`IntentAnalysisNode._refine_intent_with_llm`). -/
def validIntents : List String := ["code_question", "follow_up", "general_question", "clarification"]

/-- The regex sources for the `code_question` intent, kept opaque: the
matcher itself (`re.search`) is a parameter of the embedding. -/
def codeQuestionPatterns : List String :=
  ["\\b(código|code|función|function|clase|class|método|method)\\b",
   "\\b(implementar|implement|ejemplo|example)\\b",
   "\\b(sintaxis|syntax|error|bug)\\b"]

/-- The regex sources for the `follow_up` intent. -/
def followUpPatterns : List String :=
  ["\\b(anterior|before|mencionaste|you mentioned)\\b",
   "\\b(eso|that|esto|this)\\b",
   "\\b(más|more|detalles|details)\\b"]

/-- The regex sources for the `general_question` intent. -/
def generalQuestionPatterns : List String :=
  ["\\b(qué|what|cómo|how|cuándo|when|dónde|where)\\b",
   "\\b(explicar|explain|definir|define)\\b",
   "\\b(concepto|concept|idea|notion)\\b"]

/-- The regex sources for the `clarification` intent. -/
def clarificationPatterns : List String :=
  ["\\b(no entiendo|don\x27t understand|confuso|confused)\\b",
   "\\b(puedes explicar|can you explain|más simple|simpler)\\b"]

/-- The `intent_patterns` dict of `IntentAnalysisNode.run`, in insertion
order. -/
def intentPatterns : List (String × List String) :=
  [("code_question", codeQuestionPatterns),
   ("follow_up", followUpPatterns),
   ("general_question", generalQuestionPatterns),
   ("clarification", clarificationPatterns)]

/-- Per-intent score: the count of distinct patterns matching the
lower-cased message, for a given match oracle `μ` standing for
`re.search`. -/
def patternScore (μ : String → String → Bool) (msgLower : String)
    (ps : List String) : Nat :=
  (ps.filter (fun p => μ p msgLower)).length

/-- Python `max(scores, key=scores.get)` over the scores dict in insertion
order: the first key attaining the maximal value (the empty-dict case is
unreachable for the fixed four-intent dict). -/
def pyMaxKey (scores : List (String × Nat)) : String :=
  match scores with
  | [] => "general_question"
  | p :: rest => (rest.foldl (fun best q => if best.2 < q.2 then q else best) p).1

/-- Python `max(scores.values())` (with 0 for the unreachable empty case). -/
def pyMaxVal (scores : List (String × Nat)) : Nat :=
  (scores.map (fun p => p.2)).foldl Nat.max 0

/-- `IntentAnalysisNode._detect_intent_by_patterns`: score each intent by
its count of matching patterns; return the argmax key when any score is
positive, else the `'general_question'` default. -/
def detectIntentByPatterns (μ : String → String → Bool) (message : String) : String :=
  let ml := pyLower message
  let scores := intentPatterns.map (fun ip => (ip.1, patternScore μ ml ip.2))
  if 0 < pyMaxVal scores then pyMaxKey scores else "general_question"

/-- `IntentAnalysisNode._refine_intent_with_llm`: `llmResponse = none`
models any exception from the completion call; a returned label is used
only when, trimmed and lower-cased, it is one of the four intents. -/
def refineIntentWithLlm (llmResponse : Option String) (detectedIntent : String) : String :=
  match llmResponse with
  | none => detectedIntent
  | some r =>
    let refined := pyLower (pyStripS r)
    if refined ∈ validIntents then refined else detectedIntent

/-- The classifier as run by `IntentAnalysisNode.run`: pattern detection
then LLM refinement. -/
def classifyIntent (μ : String → String → Bool) (llmResponse : Option String)
    (message : String) : String :=
  refineIntentWithLlm llmResponse (detectIntentByPatterns μ message)

/-- Modelled from the spec: "pick the argmax, ties broken by a fixed
declared priority order code_question > follow_up > general_question >
clarification; if all scores are zero, default to general_question". Used
only to compare the source's argmax against the spec's wording. -/
def specIntentChoice (cq fu gq cl : Nat) : String :=
  if cq = 0 ∧ fu = 0 ∧ gq = 0 ∧ cl = 0 then "general_question"
  else if fu ≤ cq ∧ gq ≤ cq ∧ cl ≤ cq then "code_question"
  else if gq ≤ fu ∧ cl ≤ fu then "follow_up"
  else if cl ≤ gq then "general_question"
  else "clarification"

/-- A formatted retrieval result as built by
`EmbeddingManager.search_similar` / `search_code_blocks`: note the result
dict has no `'source'` key. -/
structure SearchResult where
  content : String
  metadata : List (String × MetaVal)
  distance : ℚ
  relevance_score : ℚ
deriving DecidableEq

/-- The per-result formatting of `EmbeddingManager.search_similar` and
`search_code_blocks`: `relevance_score` is `1.0 - distance`, with no
clamping. -/
def formatSearchResult (content : String) (md : List (String × MetaVal))
    (distance : ℚ) : SearchResult :=
  { content := content, metadata := md, distance := distance,
    relevance_score := 1 - distance }

/-- `RAGNode.run`'s merge step: concatenate both result lists, stable-sort
descending by `relevance_score`, keep the first five. -/
def ragTopResults (general code : List SearchResult) : List SearchResult :=
  ((general ++ code).mergeSort
    (fun a b => decide (b.relevance_score ≤ a.relevance_score))).take 5

/-- `RAGNode.run`'s confidence: the arithmetic mean of the kept results'
relevance scores, or `0.0` when none were kept. -/
def ragConfidence (top : List SearchResult) : ℚ :=
  if top ≠ [] then (top.map (fun r => r.relevance_score)).sum / top.length else 0

/-- Python truthiness of an optional string: `None` and `""` are falsy. -/
def pyTruthy : Option String → Bool
  | none => false
  | some s => s ≠ ""

/-- Python `a or b` on optional strings. -/
def pyOrStr (a b : Option String) : Option String :=
  if pyTruthy a then a else b

/-- One recorded conversation turn as read by the context builder. -/
structure HistEntry where
  message : String
  response : Option String
deriving DecidableEq

/-- The LangGraph `State` object of `app/agents/nodes.py`. -/
structure AgentState where
  chat_id : String
  user_message : String
  user_id : String
  chat_history : List HistEntry
  intent : Option String
  retrieved_context : List SearchResult
  response : Option String
  formatted_response : Option String
  confidence : ℚ
  needs_clarification : Bool
  clarification_question : Option String

/-- `State.__init__`: the state at orchestration entry. -/
def initAgentState (chatId msg uid : String) (hist : List HistEntry) : AgentState :=
  { chat_id := chatId, user_message := msg, user_id := uid,
    chat_history := hist, intent := none, retrieved_context := [],
    response := none, formatted_response := none, confidence := 0,
    needs_clarification := false, clarification_question := none }

/-- `InputNode.run`: substitute a fixed prompt when the utterance is
empty or whitespace. -/
def inputRun (s : AgentState) : AgentState :=
  if pyStripS s.user_message = "" then
    { s with user_message := "Por favor, proporciona una pregunta sobre la documentación." }
  else s

/-- `IntentAnalysisNode.run`: pattern detection refined by the LLM. -/
def intentAnalysisRun (μ : String → String → Bool) (llm : Option String)
    (s : AgentState) : AgentState :=
  { s with intent := some (classifyIntent μ llm s.user_message) }

/-- `ConditionalRouter.run`: the node-name string returned for each intent. -/
def conditionalRouterRun (s : AgentState) : String :=
  if s.intent = some "clarification" then "clarification_node"
  else if s.intent = some "code_question" then "rag_node"
  else if s.intent = some "follow_up" then "context_builder_node"
  else "rag_node"

/-- The conditional-edge mapping registered in
`DocumentationAgent._build_graph`: route-name key to target node. -/
def conditionalEdgeMap : List (String × String) :=
  [("rag", "rag"), ("context_builder", "context_builder"),
   ("clarification", "clarification")]

/-- The cue words of `ContextBuilderNode._extract_key_info`. -/
def keyInfoKeywords : List String := ["es", "son", "define", "significa", "permite", "utiliza"]

/-- Substring test (Python `in` on strings). -/
def containsSub (needle haystack : List Char) : Bool :=
  (List.range (haystack.length + 1)).any (fun i => needle.isPrefixOf (haystack.drop i))

/-- `ContextBuilderNode._extract_key_info`: keep at most two stripped lines
under 200 characters containing a cue word. -/
def extractKeyInfo (response : String) : String :=
  let keyLines := ((splitOnNl response.data).map pyStrip).filter
    (fun line => line ≠ [] && line.length < 200 &&
      keyInfoKeywords.any (fun kw => containsSub kw.data (line.map Char.toLower)))
  String.intercalate " " ((keyLines.take 2).map (fun l => String.mk l))

/-- `ContextBuilderNode._build_context_from_history`: key info of the
assistant answers among the last four turns. -/
def buildContextFromHistory (hist : List HistEntry) : String :=
  if hist = [] then ""
  else
    let recent := hist.drop (hist.length - 4)
    let parts := recent.filterMap (fun m =>
      if pyTruthy m.response then
        let k := extractKeyInfo (m.response.getD "")
        if k ≠ "" then some k else none
      else none)
    String.intercalate " " parts

/-- `ContextBuilderNode.run`: prefix the utterance with summarized history
and reset the intent to `general_question`. -/
def contextBuilderRun (s : AgentState) : AgentState :=
  if s.chat_history = [] then { s with intent := some "general_question" }
  else
    { s with
      user_message := "Contexto anterior: " ++ buildContextFromHistory s.chat_history ++
        "\n\nPregunta actual: " ++ s.user_message
      intent := some "general_question" }

/-- `RAGNode.run`: the general similarity query, the code-block query for
code questions, merge, rank, and confidence; `ragFails = true` models an
exception escaping into the node's `except` branch. -/
def ragRun (searchGeneral searchCode : String → List SearchResult)
    (ragFails : Bool) (s : AgentState) : AgentState :=
  if ragFails then { s with retrieved_context := [], confidence := 0 }
  else
    let general := searchGeneral s.user_message
    let code := if s.intent = some "code_question" then searchCode s.user_message else []
    let top := ragTopResults general code
    { s with retrieved_context := top, confidence := ragConfidence top }

/-- The fixed clarification question of `ResponseGenerationNode.run` and
`ClarificationNode.run`'s fallback. -/
def fixedClarificationQuestion : String :=
  "¿Podrías ser más específico sobre lo que necesitas saber?"

/-- The fixed apology of `ResponseGenerationNode.run`'s `except` branch. -/
def synthesisApology : String :=
  "Lo siento, tuve un problema generando la respuesta. ¿Podrías intentar reformular tu pregunta?"

/-- `ResponseGenerationNode.run`: on success store the trimmed answer and,
when the retrieval confidence is under 0.3, request clarification; on an
invocation failure store only the fixed apology. -/
def responseGenerationRun (llm : Option String) (s : AgentState) : AgentState :=
  match llm with
  | some r =>
    let s1 := { s with response := some (pyStripS r) }
    if s1.confidence < 3/10 then
      { s1 with needs_clarification := true,
                clarification_question := some fixedClarificationQuestion }
    else s1
  | none => { s with response := some synthesisApology }

/-- `CodeFormattingNode.run`: store the formatted answer; `fmt` stands for
the three-pass regex pipeline, whose fence-normalization pass is modelled
by `formatFenceBlock`. -/
def codeFormattingRun (fmt : String → String) (s : AgentState) : AgentState :=
  if pyTruthy s.response then
    { s with formatted_response := some (fmt (s.response.getD "")) }
  else s

/-- `MemoryNode.run`: append the exchange to the in-state history. -/
def memoryRun (s : AgentState) : AgentState :=
  { s with chat_history := s.chat_history ++
      [{ message := s.user_message, response := pyOrStr s.formatted_response s.response }] }

/-- `ClarificationNode.run`: both the success and the failure branch set
`needs_clarification` and a non-null question. -/
def clarificationRun (llm : Option String) (s : AgentState) : AgentState :=
  match llm with
  | some c =>
    { s with clarification_question := some (pyStripS c), needs_clarification := true }
  | none =>
    { s with clarification_question := some fixedClarificationQuestion,
             needs_clarification := true }

/-- The external collaborators of one orchestration run: the regex
matcher, the three LLM invocations (`none` = raised), the two store
queries (already caught inside the store adapter), the RAG-level failure
flag, and the post-processing text transform. -/
structure Oracle where
  matcher : String → String → Bool
  intentLlm : Option String
  responseLlm : Option String
  clarificationLlm : Option String
  searchGeneral : String → List SearchResult
  searchCode : String → List SearchResult
  ragFails : Bool
  fmt : String → String

/-- One orchestration run along the intended wiring of
`DocumentationAgent._build_graph` (input → intent analysis → route →
clarification | context building → retrieval → synthesis → post-process →
memory), branching on `ConditionalRouter.run`'s returned node name. -/
def runPipeline (o : Oracle) (s0 : AgentState) : AgentState :=
  if conditionalRouterRun (intentAnalysisRun o.matcher o.intentLlm (inputRun s0))
      = "clarification_node" then
    clarificationRun o.clarificationLlm
      (intentAnalysisRun o.matcher o.intentLlm (inputRun s0))
  else if conditionalRouterRun (intentAnalysisRun o.matcher o.intentLlm (inputRun s0))
      = "context_builder_node" then
    memoryRun (codeFormattingRun o.fmt (responseGenerationRun o.responseLlm
      (ragRun o.searchGeneral o.searchCode o.ragFails
        (contextBuilderRun (intentAnalysisRun o.matcher o.intentLlm (inputRun s0))))))
  else
    memoryRun (codeFormattingRun o.fmt (responseGenerationRun o.responseLlm
      (ragRun o.searchGeneral o.searchCode o.ragFails
        (intentAnalysisRun o.matcher o.intentLlm (inputRun s0)))))

/-- A value in the response dict of `DocumentationAgent.process_message`. -/
inductive RVal where
  | str (s : String)
  | num (q : ℚ)
  | boolean (b : Bool)
  | strList (l : List String)
  | null
deriving DecidableEq

/-- `None`-aware conversion of an optional string field. -/
def optToRVal : Option String → RVal
  | none => RVal.null
  | some s => RVal.str s

/-- The fixed apology of `DocumentationAgent.process_message`'s `except`
branch. -/
def processMessageApology : String :=
  "Lo siento, tuve un problema procesando tu pregunta. ¿Podrías intentar reformularla?"

/-- `DocumentationAgent.process_message` after graph invocation: build the
success dict from the terminal state, or the error dict when the graph
raised (`outcome = .error e`). The success dict's `context_sources` maps
each result through `.get('source', '')`, which is always `''` because the
store adapter's result dicts carry no `'source'` key. -/
def processMessageResult (chatId : String) (outcome : Except String AgentState) :
    List (String × RVal) :=
  match outcome with
  | .ok r =>
    let response0 := pyOrStr r.formatted_response r.response
    let response :=
      if r.needs_clarification && pyTruthy r.clarification_question then
        r.clarification_question
      else response0
    [("chat_id", RVal.str chatId), ("response", optToRVal response),
     ("intent", optToRVal r.intent), ("confidence", RVal.num r.confidence),
     ("needs_clarification", RVal.boolean r.needs_clarification),
     ("retrieved_context_count", RVal.num r.retrieved_context.length),
     ("context_sources", RVal.strList (r.retrieved_context.map (fun _ => "")))]
  | .error e =>
    [("chat_id", RVal.str chatId), ("response", RVal.str processMessageApology),
     ("intent", RVal.str "error"), ("confidence", RVal.num 0),
     ("needs_clarification", RVal.boolean false), ("error", RVal.str e)]

/-- C10: when graph execution raises, `process_message` does not propagate
the exception but returns a dict with intent `'error'` (outside the
four-intent enumeration), confidence `0.0`, `needs_clarification = false`,
the fixed apology, and without the `retrieved_context_count` and
`context_sources` keys that the success path carries. -/
theorem processMessage_error_path (chatId e : String) :
    ((processMessageResult chatId (Except.error e)).lookup "intent"
        = some (RVal.str "error")) ∧
    "error" ∉ validIntents ∧
    ((processMessageResult chatId (Except.error e)).lookup "confidence"
        = some (RVal.num 0)) ∧
    ((processMessageResult chatId (Except.error e)).lookup "needs_clarification"
        = some (RVal.boolean false)) ∧
    ((processMessageResult chatId (Except.error e)).lookup "response"
        = some (RVal.str processMessageApology)) ∧
    ((processMessageResult chatId (Except.error e)).lookup "retrieved_context_count"
        = none) ∧
    ((processMessageResult chatId (Except.error e)).lookup "context_sources"
        = none) ∧
    (∀ s : AgentState,
      (processMessageResult chatId (Except.ok s)).lookup "retrieved_context_count"
        = some (RVal.num s.retrieved_context.length)) := by
  refine ⟨?_, ?_, ?_, ?_, ?_, ?_, ?_, ?_⟩ <;>
    first
      | (intro s; simp [processMessageResult, List.lookup])
      | simp [processMessageResult, List.lookup]
      | decide

/-- C3: `ConditionalRouter.run` returns the node names `'rag_node'`,
`'context_builder_node'`, `'clarification_node'`, but the conditional-edge
mapping registered in `DocumentationAgent._build_graph` only has the keys
`'rag'`, `'context_builder'`, `'clarification'`: every routed value misses
the mapping, so orchestration cannot proceed along the claimed edges. -/
theorem router_edge_mapping_mismatch :
    (conditionalRouterRun { initAgentState "c" "m" "u" [] with
        intent := some "code_question" } = "rag_node" ∧
      conditionalEdgeMap.lookup "rag_node" = none) ∧
    (conditionalRouterRun { initAgentState "c" "m" "u" [] with
        intent := some "general_question" } = "rag_node") ∧
    (conditionalRouterRun { initAgentState "c" "m" "u" [] with
        intent := some "follow_up" } = "context_builder_node" ∧
      conditionalEdgeMap.lookup "context_builder_node" = none) ∧
    (conditionalRouterRun { initAgentState "c" "m" "u" [] with
        intent := some "clarification" } = "clarification_node" ∧
      conditionalEdgeMap.lookup "clarification_node" = none) := by
  decide

/-- C4 counterexample: with retrieval confidence `0 < 0.3` but a failing
synthesis invocation, `ResponseGenerationNode.run` leaves
`needs_clarification` false — the clarification decision is not independent
of synthesis success. -/
theorem synthesis_failure_skips_clarification :
    (responseGenerationRun none (initAgentState "c" "m" "u" [])).needs_clarification
        = false ∧
    (initAgentState "c" "m" "u" []).confidence < 3/10 := by
  constructor
  · rfl
  · norm_num [initAgentState]

/-- C4 amended: when synthesis succeeds and the retrieval confidence is
under 0.3, `needs_clarification` is set with the fixed question; when the
invocation fails, the answer is the fixed apology and the clarification
fields are left unchanged. -/
theorem responseGeneration_clarification (s : AgentState) (r : String)
    (h : s.confidence < 3/10) :
    (responseGenerationRun (some r) s).needs_clarification = true ∧
    (responseGenerationRun (some r) s).clarification_question
        = some fixedClarificationQuestion ∧
    (responseGenerationRun none s).response = some synthesisApology ∧
    (responseGenerationRun none s).needs_clarification = s.needs_clarification ∧
    (responseGenerationRun none s).clarification_question = s.clarification_question := by
  unfold responseGenerationRun
  simp [h]

/-- C4 witness: the amended statement at a concrete state. -/
theorem responseGeneration_clarification_witness :
    (responseGenerationRun (some "ok") (initAgentState "c" "m" "u" [])).needs_clarification
        = true ∧
    (responseGenerationRun none (initAgentState "c" "m" "u" [])).response
        = some synthesisApology := by
  have h := responseGeneration_clarification (initAgentState "c" "m" "u" []) "ok"
    (by norm_num [initAgentState])
  exact ⟨h.1, h.2.2.1⟩

/-- C2 counterexample: with `chunkSize = 10`, the section text
`"a. xxxxxxxxxxxxxxx"` yields a fragment of length 15 — an over-long
sentence arriving while the sentence buffer is non-empty is emitted whole,
not word-split, so the bound fails (and 15 is not the exactly-`chunkSize`
truncation exception). -/
theorem chunk_size_bound_counterexample :
    ∃ c ∈ processDocument 10
      { title := [], url := "u".data,
        sections := [{ title := [], level := 1,
                       content := ["a. xxxxxxxxxxxxxxx".data],
                       code_blocks := [] }] },
      10 < c.content.length ∧ c.content.length ≠ 10 := by
  decide

/-- C7 counterexample: a section whose `content` is the non-empty list
`[""]` passes the truthiness guard, and its cleaned joined text is empty,
so `process_document` (at the default `chunkSize = 1000`) emits a fragment
with empty content. -/
theorem empty_fragment_counterexample :
    ∃ c ∈ processDocument 1000
      { title := [], url := "u".data,
        sections := [{ title := [], level := 1, content := [[]],
                       code_blocks := [] }] },
      c.content = [] := by
  decide

/-- C8 counterexample: merging the middle chunk into the third creates a
new 51-character overlap with the first, so a second pass merges further:
the merge-overlap pass is not idempotent. -/
theorem merge_idempotence_counterexample :
    mergeOverlappingChunks (mergeOverlappingChunks
      [{ content := List.replicate 50 'w' ++ ['z'], metadata := [], source := [] },
       { content := List.replicate 50 'w', metadata := [], source := [] },
       { content := List.replicate 50 'w' ++ ['z'], metadata := [], source := [] }]) ≠
    mergeOverlappingChunks
      [{ content := List.replicate 50 'w' ++ ['z'], metadata := [], source := [] },
       { content := List.replicate 50 'w', metadata := [], source := [] },
       { content := List.replicate 50 'w' ++ ['z'], metadata := [], source := [] }] := by
  decide

/-- C9 counterexample: formatting inserts a newline before the closing
fence, so re-parsing recovers `code ++ "\n"`, not the original code text
verbatim. -/
theorem fence_roundtrip_counterexample :
    parseFenceBlock (formatFenceBlock (some "py".data) "x".data)
        ≠ some (some "py".data, "x".data) ∧
    parseFenceBlock (formatFenceBlock (some "py".data) "x".data)
        = some (some "py".data, "x\n".data) := by
  decide

/-- C1 counterexample: relevance scores are `1 - distance` with no
clamping, so a result at distance 2 gives confidence `-1 < 0`; and a
result at distance 1 gives confidence exactly `0` with a non-empty
fragment list, refuting the `= 0` iff empty claim. -/
theorem confidence_range_counterexample :
    (formatSearchResult "c" [] 2).relevance_score = -1 ∧
    ragConfidence (ragTopResults [formatSearchResult "c" [] 2] []) < 0 ∧
    ragTopResults [formatSearchResult "d" [] 1] [] ≠ [] ∧
    ragConfidence (ragTopResults [formatSearchResult "d" [] 1] []) = 0 := by
  refine ⟨by norm_num [formatSearchResult], ?_, ?_, ?_⟩ <;>
    norm_num [ragConfidence, ragTopResults, formatSearchResult, List.mergeSort]

/-- Auxiliary: stripping never lengthens a string. -/
theorem pyStrip_length_le (l : List Char) : (pyStrip l).length ≤ l.length := by
  unfold pyStrip
  have h1 := dropWhile_length_le isPySpace l
  have h2 := dropWhile_length_le isPySpace (l.dropWhile isPySpace).reverse
  simp at *
  omega

/-- Auxiliary for the amended C2: the word accumulator keeps every emitted
chunk within `cs` as long as the buffer, the emitted chunks, and every
remaining word are within `cs`. -/
theorem splitByWordsGo_bound (cs : Nat) :
    ∀ (ws : List (List Char)) (current : List Char) (chunks : List (List Char)),
      current.length ≤ cs →
      (∀ c ∈ chunks, c.length ≤ cs) →
      (∀ w ∈ ws, w.length ≤ cs) →
      ∀ c ∈ splitByWordsGo cs current chunks ws, c.length ≤ cs := by
  intro ws
  induction ws with
  | nil =>
    intro current chunks hcur hch _ c hc
    rw [splitByWordsGo] at hc
    by_cases h : current = []
    · simp [h] at hc
      exact hch c hc
    · simp [h] at hc
      rcases hc with hc | hc
      · exact hch c hc
      · subst hc
        have := pyStrip_length_le current
        omega
  | cons w rest ih =>
    intro current chunks hcur hch hws c hc
    have hwlen : w.length ≤ cs := hws w (by simp)
    have hrest : ∀ x ∈ rest, x.length ≤ cs := fun x hx => hws x (by simp [hx])
    rw [splitByWordsGo] at hc
    by_cases h1 : cs < current.length + w.length + 1
    · rw [if_pos h1] at hc
      by_cases h2 : current = []
      · rw [if_neg (by simp [h2])] at hc
        refine ih [] _ (by simp) ?_ hrest c hc
        intro x hx
        rcases List.mem_append.mp hx with hx | hx
        · exact hch x hx
        · simp at hx
          subst hx
          simp [List.length_take]
      · rw [if_pos h2] at hc
        refine ih w _ hwlen ?_ hrest c hc
        intro x hx
        rcases List.mem_append.mp hx with hx | hx
        · exact hch x hx
        · simp at hx
          subst hx
          have := pyStrip_length_le current
          omega
    · rw [if_neg h1] at hc
      refine ih _ _ ?_ hch hrest c hc
      by_cases h2 : current = []
      · simp [h2]
        omega
      · simp [h2, List.length_append]
        omega

/-- C2 amended: the hard `chunkSize` bound does not hold for segmentation
in general (an over-long sentence reached while the sentence buffer is
non-empty is emitted verbatim, and the sentence-joining length check
undercounts its two-character separator); what holds is the word-level
bound: when every whitespace-separated word of the text fits in
`chunkSize`, every chunk emitted by `_split_by_words` fits in `chunkSize`. -/
theorem splitByWords_bound (cs : Nat) (text : List Char)
    (hw : ∀ w ∈ pySplitWs text, w.length ≤ cs) :
    ∀ c ∈ splitByWords cs text, c.length ≤ cs := by
  unfold splitByWords
  exact splitByWordsGo_bound cs (pySplitWs text) [] [] (by simp) (by simp) hw

/-- C2 witness: the amended bound at a concrete input and chunk. -/
theorem splitByWords_bound_witness :
    "aa bb".data ∈ splitByWords 10 "aa bb".data ∧ ("aa bb".data).length ≤ 10 :=
  ⟨by decide, splitByWords_bound 10 "aa bb".data (by decide) "aa bb".data (by decide)⟩

/-- Auxiliary for the amended C8: the merge fold is the identity when no
adjacent pair overlaps significantly. -/
theorem mergeGo_noop (rest : List Chunk) :
    ∀ c : Chunk,
      List.Chain' (fun a b => hasSignificantOverlap a.content b.content = false)
        (c :: rest) →
      mergeGo c rest = c :: rest := by
  induction rest with
  | nil => intro c _; rfl
  | cons next rest' ih =>
    intro c h
    rw [List.chain'_cons] at h
    rw [mergeGo, if_neg (by simp [h.1]), ih next h.2]

/-- C8 amended: the merge-overlap pass is not idempotent in general (a
merge can create a fresh 50-character overlap with the previously flushed
chunk); what holds is that the pass is the identity — hence a no-op — on
any fragment sequence in which no adjacent pair shares a significant
overlap. -/
theorem mergeOverlappingChunks_noop (l : List Chunk)
    (h : List.Chain' (fun a b => hasSignificantOverlap a.content b.content = false) l) :
    mergeOverlappingChunks l = l := by
  match l with
  | [] => rfl
  | c :: rest => exact mergeGo_noop rest c h

/-- C8 witness: the amended no-op statement at a concrete two-chunk list. -/
theorem mergeOverlappingChunks_noop_witness :
    mergeOverlappingChunks
      [{ content := "a".data, metadata := [], source := [] },
       { content := "b".data, metadata := [], source := [] }] =
      [{ content := "a".data, metadata := [], source := [] },
       { content := "b".data, metadata := [], source := [] }] :=
  mergeOverlappingChunks_noop _
    (List.chain'_cons.mpr ⟨by decide, List.chain'_singleton _⟩)

/-- Auxiliary for the amended C9: greedy `(\w+)?` stops exactly at the end
of an all-word-character tag followed by a newline. -/
theorem takeWhile_word_tag (r : List Char) :
    ∀ lang : List Char, (∀ c ∈ lang, isWordChar c) →
      (lang ++ '\n' :: r).takeWhile isWordChar = lang := by
  intro lang
  induction lang with
  | nil =>
    intro _
    rw [List.nil_append, List.takeWhile_cons]
    rw [show isWordChar '\n' = false from rfl]
    simp
  | cons a l ih =>
    intro h
    have ha : isWordChar a = true := h a (by simp)
    have ihl := ih (fun c hc => h c (by simp [hc]))
    simp [List.takeWhile_cons, ha, ihl]

/-- Auxiliary for the amended C9: the lazy scan stops at the first fence;
when no proper suffix of `xs` begins a fence against the trailing one, it
returns `xs` whole. -/
theorem scanToFence_append (xs : List Char)
    (h : ∀ s, s <:+ xs → s ≠ [] → (s ++ fenceMark).take 3 ≠ fenceMark) :
    scanToFence (xs ++ fenceMark) = some (xs, []) := by
  induction xs with
  | nil => decide
  | cons a xs' ih =>
    rw [List.cons_append, scanToFence]
    rw [if_neg (by
      have := h (a :: xs') (List.suffix_refl _) (by simp)
      simpa using this)]
    rw [ih (fun s hs hne => h s (hs.trans (List.suffix_cons a xs')) hne)]
    rfl

/-- Auxiliary for the amended C9: when the code text contains no fence, no
nonempty suffix of `code ++ "\n"` begins a fence against the trailing one. -/
theorem code_newline_no_fence (code : List Char) (hcode : ¬ fenceMark <:+: code) :
    ∀ s, s <:+ code ++ ['\n'] → s ≠ [] → (s ++ fenceMark).take 3 ≠ fenceMark := by
  intro s hs hne
  obtain ⟨u, hu⟩ := hs
  rcases List.eq_nil_or_concat s with rfl | ⟨t, x, rfl⟩
  · exact absurd rfl hne
  · have hx : (u ++ t) ++ [x] = code ++ ['\n'] := by
      rw [← hu]; simp [List.concat_eq_append]
    obtain ⟨hut, hxn⟩ := List.append_inj' hx (by simp)
    have hxn' : x = '\n' := by simpa using hxn
    subst hxn'
    have ht : t <:+ code := ⟨u, hut⟩
    match t with
    | [] => decide
    | [a] =>
      intro hcontra
      simp [fenceMark, List.concat_eq_append] at hcontra
    | [a, b] =>
      intro hcontra
      simp [fenceMark, List.concat_eq_append] at hcontra
    | a :: b :: c :: t'' =>
      intro hcontra
      have habc : [a, b, c] = fenceMark := by
        simpa [List.concat_eq_append] using hcontra
      apply hcode
      obtain ⟨v, hv⟩ := ht
      exact ⟨v, t'', by rw [← hv, ← habc]; simp⟩

/-- C9 amended: the round trip does not recover the code verbatim (the
formatter inserts a newline before the closing fence, and an absent
language tag comes back as `'text'`); what holds: for a non-empty
word-character language tag and a code text containing no fence, formatting
then re-parsing recovers the language tag verbatim and the code text with
exactly one newline appended. -/
theorem fence_roundtrip_amended (lang code : List Char)
    (hlang : lang ≠ []) (hw : ∀ c ∈ lang, isWordChar c)
    (hcode : ¬ fenceMark <:+: code) :
    parseFenceBlock (formatFenceBlock (some lang) code)
      = some (some lang, code ++ ['\n']) := by
  have hfmt : formatFenceBlock (some lang) code
      = fenceMark ++ (lang ++ '\n' :: ((code ++ ['\n']) ++ fenceMark)) := by
    simp [formatFenceBlock, Option.getD]
  have h1 : (fenceMark ++ (lang ++ '\n' :: ((code ++ ['\n']) ++ fenceMark))).take 3
      = fenceMark := List.take_left' (show fenceMark.length = 3 from rfl)
  have h2 : (fenceMark ++ (lang ++ '\n' :: ((code ++ ['\n']) ++ fenceMark))).drop 3
      = lang ++ '\n' :: ((code ++ ['\n']) ++ fenceMark) :=
    List.drop_left' (show fenceMark.length = 3 from rfl)
  have h3 := takeWhile_word_tag ((code ++ ['\n']) ++ fenceMark) lang hw
  have h4 : (lang ++ '\n' :: ((code ++ ['\n']) ++ fenceMark)).drop lang.length
      = '\n' :: ((code ++ ['\n']) ++ fenceMark) := List.drop_left lang _
  have h5 := scanToFence_append _ (code_newline_no_fence code hcode)
  rw [hfmt]
  simp only [parseFenceBlock, h1, if_pos, h2, h3, h4, h5, Option.map]
  simp [hlang]

/-- C9 witness: the amended round trip at a concrete tag and code text. -/
theorem fence_roundtrip_amended_witness :
    parseFenceBlock (formatFenceBlock (some "rb".data) "y".data)
      = some (some "rb".data, "y\n".data) := by
  have h := fence_roundtrip_amended "rb".data "y".data (by decide) (by decide) (by decide)
  simpa using h

/-- Auxiliary for C5: Python's first-maximum `max(scores, key=scores.get)`
over the four-intent dict coincides with the spec's argmax with the
declared priority tie-break. -/
theorem pyArgmax_eq_specChoice (n1 n2 n3 n4 : Nat) :
    (if 0 < pyMaxVal [("code_question", n1), ("follow_up", n2),
        ("general_question", n3), ("clarification", n4)]
     then pyMaxKey [("code_question", n1), ("follow_up", n2),
        ("general_question", n3), ("clarification", n4)]
     else "general_question") = specIntentChoice n1 n2 n3 n4 := by
  have hiff : (0 < pyMaxVal [("code_question", n1), ("follow_up", n2),
      ("general_question", n3), ("clarification", n4)]) ↔
      0 < n1 ∨ 0 < n2 ∨ 0 < n3 ∨ 0 < n4 := by
    simp [pyMaxVal, lt_max_iff]
    omega
  by_cases hm : 0 < pyMaxVal [("code_question", n1), ("follow_up", n2),
      ("general_question", n3), ("clarification", n4)]
  · rw [if_pos hm]
    rw [hiff] at hm
    show (List.foldl (fun best q => if best.2 < q.2 then q else best) ("code_question", n1)
      [("follow_up", n2), ("general_question", n3), ("clarification", n4)]).1
      = specIntentChoice n1 n2 n3 n4
    simp only [List.foldl]
    rcases Nat.lt_or_ge n1 n2 with h12 | h12
    · rw [if_pos (show (("code_question", n1) : String × Nat).2 < n2 from h12)]
      rcases Nat.lt_or_ge n2 n3 with h23 | h23
      · rw [if_pos (show (("follow_up", n2) : String × Nat).2 < n3 from h23)]
        rcases Nat.lt_or_ge n3 n4 with h34 | h34
        · rw [if_pos (show (("general_question", n3) : String × Nat).2 < n4 from h34)]
          unfold specIntentChoice
          rw [if_neg (by omega), if_neg (by omega), if_neg (by omega), if_neg (by omega)]
        · rw [if_neg (show ¬ (("general_question", n3) : String × Nat).2 < n4 by omega)]
          unfold specIntentChoice
          rw [if_neg (by omega), if_neg (by omega), if_neg (by omega), if_pos (by omega)]
      · rw [if_neg (show ¬ (("follow_up", n2) : String × Nat).2 < n3 by omega)]
        rcases Nat.lt_or_ge n2 n4 with h24 | h24
        · rw [if_pos (show (("follow_up", n2) : String × Nat).2 < n4 from h24)]
          unfold specIntentChoice
          rw [if_neg (by omega), if_neg (by omega), if_neg (by omega), if_neg (by omega)]
        · rw [if_neg (show ¬ (("follow_up", n2) : String × Nat).2 < n4 by omega)]
          unfold specIntentChoice
          rw [if_neg (by omega), if_neg (by omega), if_pos (by omega)]
    · rw [if_neg (show ¬ (("code_question", n1) : String × Nat).2 < n2 by omega)]
      rcases Nat.lt_or_ge n1 n3 with h13 | h13
      · rw [if_pos (show (("code_question", n1) : String × Nat).2 < n3 from h13)]
        rcases Nat.lt_or_ge n3 n4 with h34 | h34
        · rw [if_pos (show (("general_question", n3) : String × Nat).2 < n4 from h34)]
          unfold specIntentChoice
          rw [if_neg (by omega), if_neg (by omega), if_neg (by omega), if_neg (by omega)]
        · rw [if_neg (show ¬ (("general_question", n3) : String × Nat).2 < n4 by omega)]
          unfold specIntentChoice
          rw [if_neg (by omega), if_neg (by omega), if_neg (by omega), if_pos (by omega)]
      · rw [if_neg (show ¬ (("code_question", n1) : String × Nat).2 < n3 by omega)]
        rcases Nat.lt_or_ge n1 n4 with h14 | h14
        · rw [if_pos (show (("code_question", n1) : String × Nat).2 < n4 from h14)]
          unfold specIntentChoice
          rw [if_neg (by omega), if_neg (by omega), if_neg (by omega), if_neg (by omega)]
        · rw [if_neg (show ¬ (("code_question", n1) : String × Nat).2 < n4 by omega)]
          unfold specIntentChoice
          rw [if_neg (by omega), if_pos (by omega)]
  · rw [if_neg hm]
    rw [hiff] at hm
    unfold specIntentChoice
    rw [if_pos (by omega)]

/-- Auxiliary for C5: the pattern step equals the spec's argmax applied to
the four per-intent distinct-pattern match counts. -/
theorem detectIntent_eq_specChoice (μ : String → String → Bool) (message : String) :
    detectIntentByPatterns μ message
      = specIntentChoice
          (patternScore μ (pyLower message) codeQuestionPatterns)
          (patternScore μ (pyLower message) followUpPatterns)
          (patternScore μ (pyLower message) generalQuestionPatterns)
          (patternScore μ (pyLower message) clarificationPatterns) := by
  unfold detectIntentByPatterns
  simp only [intentPatterns, List.map]
  exact pyArgmax_eq_specChoice _ _ _ _

/-- C5: for every matcher, LLM outcome and utterance, `classify` returns
one of the four enumerated intents; the pattern step is the argmax of the
per-intent distinct-pattern match counts with ties broken by the priority
order code_question > follow_up > general_question > clarification, and
returns `general_question` when all scores are zero (both captured by
`specIntentChoice`); and an LLM refinement failure leaves the pattern-step
result as the answer. -/
theorem classify_four_intents (μ : String → String → Bool) (llm : Option String)
    (message : String) :
    classifyIntent μ llm message ∈ validIntents ∧
    detectIntentByPatterns μ message
      = specIntentChoice
          (patternScore μ (pyLower message) codeQuestionPatterns)
          (patternScore μ (pyLower message) followUpPatterns)
          (patternScore μ (pyLower message) generalQuestionPatterns)
          (patternScore μ (pyLower message) clarificationPatterns) ∧
    classifyIntent μ none message = detectIntentByPatterns μ message := by
  have hdet := detectIntent_eq_specChoice μ message
  have hmem : detectIntentByPatterns μ message ∈ validIntents := by
    rw [hdet]
    unfold specIntentChoice validIntents
    split_ifs <;> simp
  refine ⟨?_, hdet, rfl⟩
  unfold classifyIntent refineIntentWithLlm
  cases llm with
  | none => exact hmem
  | some r =>
    by_cases h : pyLower (pyStripS r) ∈ validIntents
    · simp only [if_pos h]
      exact h
    · simpa [h] using hmem

/-- C1 amended: the store adapter computes `relevanceScore = 1 − distance`
with no clamping, so the `[0,1]` bound only holds when every reported
distance lies in `[0,1]`; an empty merged result list still yields
confidence exactly `0.0` (but confidence `0.0` no longer implies
emptiness, as a distance of exactly 1 also produces it). -/
theorem rag_confidence_bounds (general code : List SearchResult)
    (hrel : ∀ r ∈ general ++ code, r.relevance_score = 1 - r.distance)
    (hdist : ∀ r ∈ general ++ code, 0 ≤ r.distance ∧ r.distance ≤ 1) :
    (general ++ code = [] → ragConfidence (ragTopResults general code) = 0) ∧
    0 ≤ ragConfidence (ragTopResults general code) ∧
    ragConfidence (ragTopResults general code) ≤ 1 := by
  have hmem : ∀ r ∈ ragTopResults general code, r ∈ general ++ code := by
    intro r hr
    exact List.mem_mergeSort.mp (List.take_subset _ _ hr)
  have hscore : ∀ r ∈ ragTopResults general code,
      0 ≤ r.relevance_score ∧ r.relevance_score ≤ 1 := by
    intro r hr
    have h1 := hrel r (hmem r hr)
    have h2 := hdist r (hmem r hr)
    rw [h1]
    constructor <;> linarith [h2.1, h2.2]
  refine ⟨?_, ?_⟩
  · intro h
    have htop : ragTopResults general code = [] := by
      simp [ragTopResults, h]
    simp [ragConfidence, htop]
  · by_cases htop : ragTopResults general code = []
    · simp [ragConfidence, htop]
    · have hlen : 0 < ((ragTopResults general code).length : ℚ) := by
        have := List.length_pos.mpr htop
        exact_mod_cast this
      have hsum0 : 0 ≤ ((ragTopResults general code).map
          (fun r => r.relevance_score)).sum := by
        apply List.sum_nonneg
        intro x hx
        obtain ⟨r, hr, rfl⟩ := List.mem_map.mp hx
        exact (hscore r hr).1
      have hsum1 : ((ragTopResults general code).map
          (fun r => r.relevance_score)).sum ≤ ((ragTopResults general code).length : ℚ) := by
        have h := List.sum_le_card_nsmul ((ragTopResults general code).map
          (fun r => r.relevance_score)) 1 (by
            intro x hx
            obtain ⟨r, hr, rfl⟩ := List.mem_map.mp hx
            exact (hscore r hr).2)
        simpa [nsmul_eq_mul] using h
      unfold ragConfidence
      rw [if_pos htop]
      constructor
      · exact div_nonneg hsum0 (le_of_lt hlen)
      · rw [div_le_one hlen]
        exact hsum1

/-- C1 witness: the amended bounds at a concrete single-result retrieval. -/
theorem rag_confidence_bounds_witness :
    0 ≤ ragConfidence (ragTopResults [formatSearchResult "a" [] (1/2)] []) ∧
    ragConfidence (ragTopResults [formatSearchResult "a" [] (1/2)] []) ≤ 1 := by
  have h := rag_confidence_bounds [formatSearchResult "a" [] (1/2)] []
    (by intro r hr; simp [formatSearchResult] at hr; subst hr; rfl)
    (by intro r hr; simp [formatSearchResult] at hr; subst hr; constructor <;> norm_num [formatSearchResult])
  exact h.2

/-- Auxiliary for C6: the nodes before synthesis never touch the two
clarification fields. -/
theorem preSynthesis_clarification_unchanged (o : Oracle) (s : AgentState) :
    ((ragRun o.searchGeneral o.searchCode o.ragFails s).needs_clarification
        = s.needs_clarification) ∧
    ((ragRun o.searchGeneral o.searchCode o.ragFails s).clarification_question
        = s.clarification_question) ∧
    ((contextBuilderRun s).needs_clarification = s.needs_clarification) ∧
    ((contextBuilderRun s).clarification_question = s.clarification_question) := by
  refine ⟨?_, ?_, ?_, ?_⟩ <;>
    (first
      | (unfold ragRun; split_ifs <;> rfl)
      | (unfold contextBuilderRun; split_ifs <;> rfl))

/-- Auxiliary for C6: the tail of the synthesis path keeps whatever the
synthesis step decided about clarification. -/
theorem postSynthesis_clarification_unchanged (fmt : String → String) (s : AgentState) :
    ((memoryRun (codeFormattingRun fmt s)).needs_clarification = s.needs_clarification) ∧
    ((memoryRun (codeFormattingRun fmt s)).clarification_question
        = s.clarification_question) := by
  unfold memoryRun codeFormattingRun
  split_ifs <;> exact ⟨rfl, rfl⟩

/-- C6: every terminal state of an orchestration run satisfies the
invariant `needs_clarification = true → clarification_question ≠ null`:
the clarification node always sets both fields, the synthesis node sets
both or neither, and every other node leaves both untouched from their
initial `false`/`null`. -/
theorem orchestrator_clarification_invariant (o : Oracle)
    (chatId msg uid : String) (hist : List HistEntry)
    (h : (runPipeline o (initAgentState chatId msg uid hist)).needs_clarification = true) :
    (runPipeline o (initAgentState chatId msg uid hist)).clarification_question.isSome
      = true := by
  obtain ⟨mu, illm, rllm, cllm, sg, sc, rf, fmt⟩ := o
  unfold runPipeline at h ⊢
  have hinit : ∀ s : AgentState,
      (intentAnalysisRun mu illm (inputRun s)).needs_clarification
          = s.needs_clarification ∧
      (intentAnalysisRun mu illm (inputRun s)).clarification_question
          = s.clarification_question := by
    intro s
    unfold intentAnalysisRun inputRun
    split_ifs <;> exact ⟨rfl, rfl⟩
  split_ifs at h ⊢ with h1 h2
  · unfold clarificationRun at h ⊢
    cases cllm <;> simp
  · have hpost := postSynthesis_clarification_unchanged fmt
      (responseGenerationRun rllm (ragRun sg sc rf
        (contextBuilderRun (intentAnalysisRun mu illm
          (inputRun (initAgentState chatId msg uid hist))))))
    rw [hpost.1] at h
    rw [hpost.2]
    have hpre := preSynthesis_clarification_unchanged
      ⟨mu, illm, rllm, cllm, sg, sc, rf, fmt⟩
      (contextBuilderRun (intentAnalysisRun mu illm
        (inputRun (initAgentState chatId msg uid hist))))
    have hpre2 := preSynthesis_clarification_unchanged
      ⟨mu, illm, rllm, cllm, sg, sc, rf, fmt⟩
      (intentAnalysisRun mu illm
        (inputRun (initAgentState chatId msg uid hist)))
    cases rllm with
    | none =>
      unfold responseGenerationRun at h
      rw [hpre.1, hpre2.2.2.1,
        (hinit (initAgentState chatId msg uid hist)).1] at h
      exact absurd h (by simp [initAgentState])
    | some r =>
      unfold responseGenerationRun at h ⊢
      simp only [] at h ⊢
      split_ifs at h ⊢ with hc
      · simp
      · rw [hpre.1, hpre2.2.2.1,
          (hinit (initAgentState chatId msg uid hist)).1] at h
        exact absurd h (by simp [initAgentState])
  · have hpost := postSynthesis_clarification_unchanged fmt
      (responseGenerationRun rllm (ragRun sg sc rf
        (intentAnalysisRun mu illm
          (inputRun (initAgentState chatId msg uid hist)))))
    rw [hpost.1] at h
    rw [hpost.2]
    have hpre2 := preSynthesis_clarification_unchanged
      ⟨mu, illm, rllm, cllm, sg, sc, rf, fmt⟩
      (intentAnalysisRun mu illm
        (inputRun (initAgentState chatId msg uid hist)))
    cases rllm with
    | none =>
      unfold responseGenerationRun at h
      rw [hpre2.1, (hinit (initAgentState chatId msg uid hist)).1] at h
      exact absurd h (by simp [initAgentState])
    | some r =>
      unfold responseGenerationRun at h ⊢
      simp only [] at h ⊢
      split_ifs at h ⊢ with hc
      · simp
      · rw [hpre2.1, (hinit (initAgentState chatId msg uid hist)).1] at h
        exact absurd h (by simp [initAgentState])

/-- C6 witness: the invariant at a concrete run that does request
clarification (the LLM classifies the utterance as `clarification`). -/
theorem orchestrator_clarification_invariant_witness :
    (runPipeline
      { matcher := fun _ _ => false, intentLlm := some "clarification",
        responseLlm := none, clarificationLlm := some "q",
        searchGeneral := fun _ => [], searchCode := fun _ => [],
        ragFails := false, fmt := fun t => t }
      (initAgentState "c" "hola" "u" [])).clarification_question.isSome = true :=
  orchestrator_clarification_invariant _ "c" "hola" "u" [] (by decide)

/-- A string with at least one non-whitespace character (so its strip is
non-empty). -/
def hasNonWsChar (l : List Char) : Prop := ∃ c ∈ l, isPySpace c = false

/-- Auxiliary: an element failing the predicate survives `dropWhile`. -/
theorem mem_dropWhile_of_neg (p : Char → Bool) :
    ∀ (l : List Char) (x : Char), x ∈ l → p x = false → x ∈ l.dropWhile p := by
  intro l
  induction l with
  | nil => intro x hx _; simp at hx
  | cons a rest ih =>
    intro x hx hpx
    by_cases ha : p a
    · rw [List.dropWhile_cons_of_pos ha]
      rcases List.mem_cons.mp hx with rfl | hx'
      · rw [ha] at hpx; simp at hpx
      · exact ih x hx' hpx
    · rw [List.dropWhile_cons_of_neg ha]
      exact hx

/-- Auxiliary: stripping a string with a non-whitespace character leaves it
non-empty. -/
theorem pyStrip_ne_nil (l : List Char) (h : hasNonWsChar l) : pyStrip l ≠ [] := by
  obtain ⟨c, hc, hcw⟩ := h
  intro hcontra
  unfold pyStrip at hcontra
  rw [List.reverse_eq_nil_iff, List.dropWhile_eq_nil_iff] at hcontra
  have hc1 : c ∈ (l.dropWhile isPySpace).reverse :=
    List.mem_reverse.mpr (mem_dropWhile_of_neg isPySpace l c hc hcw)
  have := hcontra c hc1
  rw [hcw] at this
  simp at this

/-- Auxiliary: a non-empty `dropWhile` result contains a witness failing
the predicate. -/
theorem dropWhile_has_neg (p : Char → Bool) :
    ∀ l : List Char, l.dropWhile p ≠ [] → ∃ c ∈ l.dropWhile p, p c = false := by
  intro l
  induction l with
  | nil => intro h; simp at h
  | cons a rest ih =>
    intro h
    by_cases ha : p a
    · rw [List.dropWhile_cons_of_pos ha] at h ⊢
      exact ih h
    · rw [List.dropWhile_cons_of_neg ha]
      exact ⟨a, by simp, by simpa using ha⟩

/-- Auxiliary: a non-empty stripped string still has a non-whitespace
character. -/
theorem pyStrip_hasNonWs (l : List Char) (h : pyStrip l ≠ []) :
    hasNonWsChar (pyStrip l) := by
  unfold pyStrip at h ⊢
  have h2 : (l.dropWhile isPySpace).reverse.dropWhile isPySpace ≠ [] := by
    intro hx
    rw [hx] at h
    simp at h
  obtain ⟨c, hc, hcw⟩ := dropWhile_has_neg isPySpace (l.dropWhile isPySpace).reverse h2
  exact ⟨c, List.mem_reverse.mpr hc, hcw⟩

/-- Auxiliary: `str.split()` produces only non-empty, whitespace-free
words. -/
theorem pySplitWsF_words :
    ∀ (fuel : Nat) (l : List Char), ∀ w ∈ pySplitWsF fuel l,
      w ≠ [] ∧ ∀ c ∈ w, isPySpace c = false := by
  intro fuel
  induction fuel with
  | zero =>
    intro l w hw
    cases l <;> simp [pySplitWsF] at hw
  | succ fuel ih =>
    intro l w hw
    cases l with
    | nil => simp [pySplitWsF] at hw
    | cons c rest =>
      rw [pySplitWsF] at hw
      by_cases hc : isPySpace c
      · rw [if_pos hc] at hw
        exact ih rest w hw
      · rw [if_neg hc] at hw
        rcases List.mem_cons.mp hw with rfl | hw'
        · refine ⟨by simp, ?_⟩
          intro x hx
          rcases List.mem_cons.mp hx with rfl | hx'
          · simpa using hc
          · have := List.mem_takeWhile_imp hx'
            simpa using this
        · exact ih _ w hw'

/-- Auxiliary: every chunk emitted by the word accumulator is non-empty
when `cs` is positive. -/
theorem splitByWordsGo_ne_nil (cs : Nat) (hcs : 0 < cs) :
    ∀ (ws : List (List Char)) (current : List Char) (chunks : List (List Char)),
      (current = [] ∨ hasNonWsChar current) →
      (∀ ch ∈ chunks, ch ≠ []) →
      (∀ w ∈ ws, w ≠ [] ∧ ∀ c ∈ w, isPySpace c = false) →
      ∀ ch ∈ splitByWordsGo cs current chunks ws, ch ≠ [] := by
  intro ws
  induction ws with
  | nil =>
    intro current chunks hcur hch _ ch hmem
    rw [splitByWordsGo] at hmem
    by_cases h : current = []
    · simp [h] at hmem
      exact hch ch hmem
    · simp [h] at hmem
      rcases hmem with hmem | hmem
      · exact hch ch hmem
      · subst hmem
        exact pyStrip_ne_nil current (hcur.resolve_left h)
  | cons w rest ih =>
    intro current chunks hcur hch hws ch hmem
    have hw := hws w (by simp)
    obtain ⟨c0, hc0⟩ := List.exists_mem_of_ne_nil w hw.1
    have hw0 : hasNonWsChar w := ⟨c0, hc0, hw.2 c0 hc0⟩
    have hrest : ∀ x ∈ rest, x ≠ [] ∧ ∀ c ∈ x, isPySpace c = false :=
      fun x hx => hws x (by simp [hx])
    rw [splitByWordsGo] at hmem
    by_cases h1 : cs < current.length + w.length + 1
    · rw [if_pos h1] at hmem
      by_cases h2 : current = []
      · rw [if_neg (by simp [h2])] at hmem
        refine ih [] _ (Or.inl rfl) ?_ hrest ch hmem
        intro x hx
        rcases List.mem_append.mp hx with hx | hx
        · exact hch x hx
        · simp at hx
          subst hx
          rw [Ne, List.take_eq_nil_iff]
          push_neg
          exact ⟨by omega, hw.1⟩
      · rw [if_pos h2] at hmem
        refine ih w _ (Or.inr hw0) ?_ hrest ch hmem
        intro x hx
        rcases List.mem_append.mp hx with hx | hx
        · exact hch x hx
        · simp at hx
          subst hx
          exact pyStrip_ne_nil current (hcur.resolve_left h2)
    · rw [if_neg h1] at hmem
      refine ih _ _ ?_ hch hrest ch hmem
      right
      by_cases h2 : current = []
      · simpa [h2] using hw0
      · rw [if_pos h2]
        refine ⟨c0, ?_, hw.2 c0 hc0⟩
        simp [hc0]

/-- Auxiliary: every chunk of `_split_by_words` is non-empty when `cs` is
positive. -/
theorem splitByWords_ne_nil (cs : Nat) (hcs : 0 < cs) (text : List Char) :
    ∀ ch ∈ splitByWords cs text, ch ≠ [] := by
  unfold splitByWords
  exact splitByWordsGo_ne_nil cs hcs (pySplitWs text) [] [] (Or.inl rfl) (by simp)
    (pySplitWsF_words text.length text)

/-- Auxiliary: every chunk emitted by the sentence accumulator is
non-empty when `cs` is positive. -/
theorem splitLongParagraphGo_ne_nil (cs : Nat) (hcs : 0 < cs) :
    ∀ (ss : List (List Char)) (current : List Char) (chunks : List (List Char)),
      (current = [] ∨ hasNonWsChar current) →
      (∀ ch ∈ chunks, ch ≠ []) →
      ∀ ch ∈ splitLongParagraphGo cs current chunks ss, ch ≠ [] := by
  intro ss
  induction ss with
  | nil =>
    intro current chunks hcur hch ch hmem
    rw [splitLongParagraphGo] at hmem
    by_cases h : current = []
    · simp [h] at hmem
      exact hch ch hmem
    · simp [h] at hmem
      rcases hmem with hmem | hmem
      · exact hch ch hmem
      · subst hmem
        exact pyStrip_ne_nil current (hcur.resolve_left h)
  | cons s0 rest ih =>
    intro current chunks hcur hch ch hmem
    rw [splitLongParagraphGo] at hmem
    by_cases hs : pyStrip s0 = []
    · rw [if_pos hs] at hmem
      exact ih current chunks hcur hch ch hmem
    · rw [if_neg hs] at hmem
      have hsw : hasNonWsChar (pyStrip s0) := pyStrip_hasNonWs s0 hs
      by_cases h1 : cs < current.length + (pyStrip s0).length + 1
      · rw [if_pos h1] at hmem
        by_cases h2 : current = []
        · rw [if_neg (by simp [h2])] at hmem
          by_cases h3 : cs < (pyStrip s0).length
          · rw [if_pos h3] at hmem
            refine ih [] _ (Or.inl rfl) ?_ ch hmem
            intro x hx
            rcases List.mem_append.mp hx with hx | hx
            · exact hch x hx
            · exact splitByWords_ne_nil cs hcs (pyStrip s0) x hx
          · rw [if_neg h3] at hmem
            refine ih [] _ (Or.inl rfl) ?_ ch hmem
            intro x hx
            rcases List.mem_append.mp hx with hx | hx
            · exact hch x hx
            · simp at hx
              subst hx
              exact hs
        · rw [if_pos h2] at hmem
          refine ih (pyStrip s0) _ (Or.inr hsw) ?_ ch hmem
          intro x hx
          rcases List.mem_append.mp hx with hx | hx
          · exact hch x hx
          · simp at hx
            subst hx
            exact pyStrip_ne_nil current (hcur.resolve_left h2)
      · rw [if_neg h1] at hmem
        refine ih _ _ ?_ hch ch hmem
        right
        obtain ⟨c0, hc0, hc0w⟩ := hsw
        by_cases h2 : current = []
        · simpa [h2] using ⟨c0, hc0, hc0w⟩
        · rw [if_pos h2]
          refine ⟨c0, ?_, hc0w⟩
          simp [hc0]

/-- Auxiliary: every chunk of `_split_long_paragraph` is non-empty when
`cs` is positive. -/
theorem splitLongParagraph_ne_nil (cs : Nat) (hcs : 0 < cs) (p : List Char) :
    ∀ ch ∈ splitLongParagraph cs p, ch ≠ [] := by
  unfold splitLongParagraph
  exact splitLongParagraphGo_ne_nil cs hcs (splitSentencesRe p) [] []
    (Or.inl rfl) (by simp)

/-- Auxiliary: every fragment emitted by the paragraph accumulator has
non-empty content when `cs` is positive. -/
theorem chunkTextGo_ne_nil (cs : Nat) (hcs : 0 < cs) (md : List (String × MetaVal))
    (src : List Char) :
    ∀ (ps : List (List Char)) (current : List Char) (chunks : List Chunk),
      (current = [] ∨ hasNonWsChar current) →
      (∀ ch ∈ chunks, ch.content ≠ []) →
      ∀ ch ∈ chunkTextGo cs md src current chunks ps, ch.content ≠ [] := by
  intro ps
  induction ps with
  | nil =>
    intro current chunks hcur hch ch hmem
    rw [chunkTextGo] at hmem
    by_cases h : current = []
    · simp [h] at hmem
      exact hch ch hmem
    · simp [h] at hmem
      rcases hmem with hmem | hmem
      · exact hch ch hmem
      · subst hmem
        exact pyStrip_ne_nil current (hcur.resolve_left h)
  | cons p0 rest ih =>
    intro current chunks hcur hch ch hmem
    rw [chunkTextGo] at hmem
    by_cases hp : pyStrip p0 = []
    · rw [if_pos hp] at hmem
      exact ih current chunks hcur hch ch hmem
    · rw [if_neg hp] at hmem
      have hpw : hasNonWsChar (pyStrip p0) := pyStrip_hasNonWs p0 hp
      have hflush : ∀ x ∈ (if current ≠ [] then
          chunks ++ [⟨pyStrip current, md, src⟩] else chunks), x.content ≠ [] := by
        intro x hx
        by_cases h2 : current = []
        · rw [if_neg (by simp [h2])] at hx
          exact hch x hx
        · rw [if_pos h2] at hx
          rcases List.mem_append.mp hx with hx | hx
          · exact hch x hx
          · simp at hx
            subst hx
            exact pyStrip_ne_nil current (hcur.resolve_left h2)
      by_cases h1 : cs < (pyStrip p0).length
      · rw [if_pos h1] at hmem
        refine ih [] _ (Or.inl rfl) ?_ ch hmem
        intro x hx
        rcases List.mem_append.mp hx with hx | hx
        · exact hflush x hx
        · rw [List.mem_map] at hx
          obtain ⟨c, hc, rfl⟩ := hx
          exact splitLongParagraph_ne_nil cs hcs (pyStrip p0) c hc
      · rw [if_neg h1] at hmem
        by_cases h2 : cs < current.length + (pyStrip p0).length + 1
        · rw [if_pos h2] at hmem
          exact ih (pyStrip p0) _ (Or.inr hpw) hflush ch hmem
        · rw [if_neg h2] at hmem
          refine ih _ _ ?_ hch ch hmem
          right
          obtain ⟨c0, hc0, hc0w⟩ := hpw
          by_cases h3 : current = []
          · simpa [h3] using ⟨c0, hc0, hc0w⟩
          · rw [if_pos h3]
            refine ⟨c0, ?_, hc0w⟩
            simp [hc0]

/-- Auxiliary: every fragment of `_chunk_text` has non-empty content when
`cs` is positive and the cleaned text is non-empty. -/
theorem chunkText_ne_nil (cs : Nat) (hcs : 0 < cs) (text : List Char)
    (md : List (String × MetaVal)) (src : List Char)
    (hclean : cleanText text ≠ []) :
    ∀ ch ∈ chunkText cs text md src, ch.content ≠ [] := by
  intro ch hmem
  unfold chunkText at hmem
  by_cases hlen : (cleanText text).length ≤ cs
  · rw [if_pos hlen] at hmem
    simp at hmem
    subst hmem
    exact hclean
  · rw [if_neg hlen] at hmem
    exact chunkTextGo_ne_nil cs hcs md src _ [] [] (Or.inl rfl) (by simp) ch hmem

/-- C7 amended: the truthiness guard only drops a section whose content
is the empty list, so a section whose content lines clean to the empty
string still yields an empty fragment (see the counterexample); what
holds: when `chunkSize` is positive and every present section content
cleans to a non-empty string, segmentation emits no empty-content
fragment (title, section-title and code-block fragments are non-empty by
construction). -/
theorem processDocument_no_empty_fragment (cs : Nat) (d : DocumentData)
    (hcs : 0 < cs)
    (hsec : ∀ s ∈ d.sections, s.content ≠ [] →
      cleanText (List.intercalate ['\n'] s.content) ≠ []) :
    ∀ ch ∈ processDocument cs d, ch.content ≠ [] := by
  intro ch hmem
  unfold processDocument at hmem
  rcases List.mem_append.mp hmem with hmem | hmem
  · rw [List.mem_ite_nil_right] at hmem
    obtain ⟨_, hmem⟩ := hmem
    simp at hmem
    subst hmem
    simp
  · rw [List.mem_flatten] at hmem
    obtain ⟨l, hl, hch⟩ := hmem
    rw [List.mem_map] at hl
    obtain ⟨s, hsmem, rfl⟩ := hl
    unfold processSection at hch
    rcases List.mem_append.mp hch with hch | hch
    · rcases List.mem_append.mp hch with hch | hch
      · rw [List.mem_ite_nil_right] at hch
        obtain ⟨_, hch⟩ := hch
        simp at hch
        subst hch
        simp
      · rw [List.mem_ite_nil_right] at hch
        obtain ⟨hcont, hch⟩ := hch
        exact chunkText_ne_nil cs hcs _ _ _ (hsec s hsmem hcont) ch hch
    · rw [List.mem_map] at hch
      obtain ⟨cb, _, rfl⟩ := hch
      simp [codeBlockChunk]

/-- C7 witness: the amended no-empty-fragment statement at a concrete
document, applied to its first fragment. -/
theorem processDocument_no_empty_fragment_witness :
    ((processDocument 1000
      { title := "T".data, url := "u".data,
        sections := [{ title := "S".data, level := 1,
                       content := ["hola".data], code_blocks := [] }] }).head
      (by decide)).content ≠ [] :=
  processDocument_no_empty_fragment 1000
    { title := "T".data, url := "u".data,
      sections := [{ title := "S".data, level := 1,
                     content := ["hola".data], code_blocks := [] }] }
    (by norm_num) (by decide) _ (List.head_mem _)
